import Mathlib

/-!
Shallow embedding of `compute_av45_pet_paths` from
`clinica/iotools/converters/adni_to_bids/adni_modalities/adni_av45_pet.py`.

Tables are lists of records; pandas boolean-mask filtering becomes `List.filter`
(which preserves row order, as pandas does), `.iloc[0]` becomes `List.head?`
(an empty selection raises `IndexError` in pandas; those places are modelled
with `Except`/`Option`), `pandas.unique` becomes a first-occurrence
deduplication, and `numpy.argsort` on the series-id keys becomes an
insertion sort of the (qc row, metadata row) pairs by series id (every
comparison sort agrees on lists with pairwise-distinct keys, which is the
case in all scenarios verified below).  The filesystem consumed by
`os.walk` is an abstract map from a path to its list of
`(dirpath, dirnames, filenames)` triples.
-/

namespace AV45

/-- One row of `AV45QC.csv` (columns used by the code). -/
structure QCRow where
  RID : Int
  PASS : Int
  VISCODE2 : String
  LONIUID : String
  EXAMDATE : String
deriving DecidableEq, Repr

/-- One row of `PET_META_LIST.csv` (columns used by the code):
`Subject`, `Image ID`, `Series ID`, `Sequence`, `Orig/Proc`, `Scan Date`,
`Study ID`, `Visit`. -/
structure MetaRow where
  subject : String
  imageID : Int
  seriesID : Int
  sequence : String
  origProc : String
  scanDate : String
  studyID : Int
  visitLabel : String
deriving DecidableEq, Repr

/-- One row of the assembled dataframe `pet_av45_df`, before the
`Is_Dicom`/`Path` columns are attached (the source stores the numeric ids
as their decimal string forms; we keep them as integers, which carries the
same information). -/
structure OutRow where
  Subject_ID : String
  VISCODE : String
  Visit : String
  Sequence : String
  Scan_Date : String
  Study_ID : Int
  Series_ID : Int
  Image_ID : Int
  Original : Bool
deriving DecidableEq, Repr

/-- `beginsWith needle hay` : does `hay` start with `needle`? -/
def beginsWith : List Char → List Char → Bool
  | [], _ => true
  | _ :: _, [] => false
  | c :: cs, d :: ds => c == d && beginsWith cs ds

/-- Substring containment on character lists, mirroring Python
`hay.find(needle) >= 0`. -/
def containsSub (needle : List Char) : List Char → Bool
  | [] => needle.isEmpty
  | c :: cs => beginsWith needle (c :: cs) || containsSub needle cs

/-- The characters of `s` after Python's `str.lower()` (ASCII case fold). -/
def lowerStr (s : String) : List Char := s.toList.map Char.toLower

/-- `s.lower().find('early') >= 0` from the source. -/
def containsEarly (s : String) : Bool := containsSub ("early".toList) (lowerStr s)

/-- `s.lower().find('av45') > -1` from the source. -/
def containsAv45 (s : String) : Bool := containsSub ("av45".toList) (lowerStr s)

/-- `f.endswith(post)` from the source (second archive walk). -/
def strEndsWith (f post : String) : Bool :=
  beginsWith post.toList.reverse f.toList.reverse

/-- Characters treated as unsafe for filesystem paths. -/
def badPathChars : List Char := [' ', '/', ';', '*', '(', ')', ':', '<', '>', '?']

def sanitizeChar (c : Char) : Char := if c ∈ badPathChars then '_' else c

/-- Modelled from the spec: `replace_sequence_chars` is imported from
`adni_utils`, which is not part of the sources; the spec says the sequence
name "is passed through a sanitizer that maps characters unsafe for
filesystem/path use to safe equivalents".  Modelled as a character-wise map
sending each unsafe character to an underscore. -/
def replace_sequence_chars (s : String) : String :=
  String.mk (s.toList.map sanitizeChar)

/-- All-digit parse of a character list (`none` on empty input or any
non-digit).  Used to model Python `int(...)` on the well-formed numeric
strings the code feeds it; Python raises `ValueError` on malformed input,
a path no verified scenario takes. -/
def parseNatDigitsAux : List Char → Nat → Option Nat
  | [], acc => some acc
  | c :: cs, acc =>
    if c.isDigit then parseNatDigitsAux cs (acc * 10 + (c.toNat - '0'.toNat))
    else none

def parseNatDigits : List Char → Option Nat
  | [] => none
  | c :: cs => parseNatDigitsAux (c :: cs) 0

/-- `int(image.LONIUID[1:])` from the source: drop the one-character
prefix of the image unique identifier and read the rest as a number. -/
def int_of_loniuid (s : String) : Int :=
  ((parseNatDigits (s.toList.drop 1)).getD 0 : Nat)

/-- `int(subj[-4:])` from the source: the trailing numeric RID embedded in
the subject string (Python's `[-4:]` returns the whole string when it is
shorter than 4, as does `List.drop (length - 4)`). -/
def rid_of_subject (s : String) : Int :=
  ((parseNatDigits (s.toList.drop (s.toList.length - 4))).getD 0 : Nat)

/-- First-occurrence-order deduplication, as `pandas.Series.unique`. -/
def uniqueAux (seen : List String) : List String → List String
  | [] => []
  | x :: xs =>
    if seen.contains x then uniqueAux seen xs
    else x :: uniqueAux (x :: seen) xs

def uniqueKeep (l : List String) : List String := uniqueAux [] l

/-- The fixed derivative sequence label from the source. -/
def coregLabel : String := "AV45 Co-registered, Averaged"

/-- `coreg_avg.shape[0] > 0` for a given series id: does a
`'AV45 Co-registered, Averaged'` metadata row with that series id exist? -/
def hasCoregAvg (meta : List MetaRow) (sid : Int) : Bool :=
  !(meta.filter (fun m => m.sequence == coregLabel && m.seriesID == sid)).isEmpty

/-- Lines 92-98: for each QC row of a multi-row visit, fetch the first
metadata row with matching `Image ID` (`.iloc[0]`, which raises on an empty
selection, modelled as `Except.error`) and keep the pair when the sequence
name has no `early` marker. -/
def collectNormal (meta : List MetaRow) : List QCRow → Except String (List (QCRow × MetaRow))
  | [] => .ok []
  | q :: qs =>
    match (meta.filter (fun m => m.imageID == int_of_loniuid q.LONIUID)).head? with
    | none => .error ("empty iloc for " ++ q.LONIUID)
    | some m =>
      match collectNormal meta qs with
      | .error e => .error e
      | .ok rest => .ok (if containsEarly m.sequence then rest else (q, m) :: rest)

/-- Lines 105-117: among several non-early candidates, sort the pairs by
metadata `Series ID` ascending (`argsort`), scan from the highest series id
downward (`index[::-1]`) for the first candidate whose series id has a
co-registered-averaged derivative; if none has one, fall back to
`normal_images[index[len(index) - 1]]`, the candidate at the last position
of the ascending order, i.e. the head of the reversed order. -/
def select_among (meta : List MetaRow) (normal : List (QCRow × MetaRow)) : Option QCRow :=
  let sorted := List.insertionSort (fun a b => a.2.seriesID ≤ b.2.seriesID) normal
  match sorted.reverse.find? (fun p => hasCoregAvg meta p.2.seriesID) with
  | some p => some p.1
  | none => sorted.reverse.head?.map Prod.fst

/-- Lines 89-119: resolve the representative passed QC row of one visit.
`Except.error` models the `IndexError` escaping `compute_av45_pet_paths`,
`Option.none` the `continue` that skips the visit with a diagnostic. -/
def resolve_qc (meta : List MetaRow) (qcVisit : List QCRow) : Except String (Option QCRow) :=
  if 1 < qcVisit.length then
    match collectNormal meta qcVisit with
    | .error e => .error e
    | .ok normal =>
      if normal.isEmpty then .ok none
      else if normal.length == 1 then .ok (normal.head?.map Prod.fst)
      else .ok (select_among meta normal)
  else .ok qcVisit.head?

/-- The first filter of lines 121-123: an `Original` metadata row whose
`Image ID` equals the QC row's numeric image identifier and whose sequence
name has no `early` marker. -/
def primaryPred (q : QCRow) (m : MetaRow) : Bool :=
  m.origProc == "Original" && m.imageID == int_of_loniuid q.LONIUID
    && !(containsEarly m.sequence)

/-- The fallback filter of lines 125-130: an `Original` metadata row whose
sequence name mentions the tracer `av45`, has no `early` marker, and whose
scan date equals the QC row's exam date. -/
def secondaryPred (q : QCRow) (m : MetaRow) : Bool :=
  m.origProc == "Original" && containsAv45 m.sequence
    && !(containsEarly m.sequence) && m.scanDate == q.EXAMDATE

/-- Lines 120-135: the two-stage raw-acquisition match; `none` when both
filters come up empty (the visit is then skipped with a diagnostic). -/
def raw_acquisition_match (meta : List MetaRow) (q : QCRow) : Option MetaRow :=
  let primary := meta.filter (primaryPred q)
  let chosen := if primary.length < 1 then meta.filter (secondaryPred q) else primary
  chosen.head?

/-- The derivative filter of lines 136-137. -/
def isCoregOf (orig : MetaRow) (m : MetaRow) : Bool :=
  m.sequence == coregLabel && m.seriesID == orig.seriesID

/-- Lines 136-143: prefer the first co-registered-averaged derivative
sharing the matched raw acquisition's series id; the boolean is the
`Original` flag of the emitted row. -/
def select_variant (meta : List MetaRow) (orig : MetaRow) : MetaRow × Bool :=
  match (meta.filter (isCoregOf orig)).head? with
  | none => (orig, true)
  | some a => (a, false)

/-- Lines 144-154: the row appended to `pet_av45_df` (note line 144
rebinds `visit` to `sel_image.Visit`, so the `Visit` column holds the
selected image's visit label while `VISCODE` holds the QC row's code). -/
def mkOutRow (subj : String) (qc : QCRow) (sv : MetaRow × Bool) : OutRow :=
  { Subject_ID := subj
    VISCODE := qc.VISCODE2
    Visit := sv.1.visitLabel
    Sequence := replace_sequence_chars sv.1.sequence
    Scan_Date := sv.1.scanDate
    Study_ID := sv.1.studyID
    Series_ID := sv.1.seriesID
    Image_ID := sv.1.imageID
    Original := sv.2 }

/-- Lines 88-155 for a single visit: zero or one output rows, or an
uncaught exception. -/
def processVisit (subj : String) (meta : List MetaRow) (_visitCode : String)
    (qcVisit : List QCRow) : Except String (Option OutRow) :=
  match resolve_qc meta qcVisit with
  | .error e => .error e
  | .ok none => .ok none
  | .ok (some qc) =>
    match raw_acquisition_match meta qc with
    | none => .ok none
    | some orig => .ok (some (mkOutRow subj qc (select_variant meta orig)))

/-- Line 87's loop over the distinct visit codes of the subject's passed
QC rows, in first-occurrence order. -/
def processVisits (subj : String) (meta : List MetaRow) (qcSubj : List QCRow) :
    List String → Except String (List OutRow)
  | [] => .ok []
  | v :: vs =>
    match processVisit subj meta v (qcSubj.filter (fun q => q.VISCODE2 == v)) with
    | .error e => .error e
    | .ok r? =>
      match processVisits subj meta qcSubj vs with
      | .error e => .error e
      | .ok rest => .ok (r?.toList ++ rest)

/-- Lines 79-87: filter the QC table to the subject's passed rows
(`PASS == 1`, `RID == int(subj[-4:])`), fetch the subject's metadata rows,
skip the subject entirely when it has none. -/
def processSubject (petqc : List QCRow) (metaList : List MetaRow) (subj : String) :
    Except String (List OutRow) :=
  let qcSubj := petqc.filter (fun q => q.PASS == 1 && q.RID == rid_of_subject subj)
  let meta := metaList.filter (fun m => m.subject == subj)
  if meta.length < 1 then .ok []
  else processVisits subj meta qcSubj (uniqueKeep (qcSubj.map (fun q => q.VISCODE2)))

/-- The fold over `subjs_list`, concatenating per-subject rows in order. -/
def processSubjects (petqc : List QCRow) (metaList : List MetaRow) :
    List String → Except String (List OutRow)
  | [] => .ok []
  | s :: ss =>
    match processSubject petqc metaList s with
    | .error e => .error e
    | .ok rs =>
      match processSubjects petqc metaList ss with
      | .error e => .error e
      | .ok rest => .ok (rs ++ rest)

/-- Lines 159-160: the static exception deny-list. -/
def conversion_errors : List (String × String) := [("128_S_2220", "m48")]

/-- Does an assembled row match some deny-list pair?  This is the
row-level reading of the boolean masks of lines 162-167 (`reduce` with
`operator.or_` over one equality mask per deny-list entry). -/
def isConversionError (r : OutRow) : Bool :=
  conversion_errors.any (fun e => e.1 == r.Subject_ID && e.2 == r.VISCODE)

/-- Lines 162-168: drop exactly the rows matching a deny-list pair. -/
def apply_conversion_errors (rows : List OutRow) : List OutRow :=
  rows.filter (fun r => !(isConversionError r))

/-- One `(dirpath, dirnames, filenames)` triple yielded by `os.walk`. -/
structure WalkEntry where
  dirpath : String
  dirnames : List String
  filenames : List String
deriving DecidableEq, Repr

/-- The abstract filesystem: the full top-down `os.walk` listing rooted at
a given path. -/
abbrev FileTree := String → List WalkEntry

/-- `os.walk` of the empty path yields no entries (the underlying scandir
error is swallowed by `os.walk`'s default `onerror=None`). -/
def os_walk (fs : FileTree) (p : String) : List WalkEntry :=
  if p = "" then [] else fs p

/-- `os.path.join` for the relative, non-empty components the code builds
(joining onto an empty left part returns the right part unchanged). -/
def pathJoin (a b : String) : String := if a = "" then b else a ++ "/" ++ b

/-- An assembled row with the `Is_Dicom` and `Path` columns attached. -/
structure LocatedRow where
  row : OutRow
  Is_Dicom : Bool
  Path : String
deriving DecidableEq, Repr

/-- Lines 181-190: the first walk; the first directory literally named
`'I' + str(image.Image_ID)` found in top-down order wins (both loops
break), and the path stays empty when none exists. -/
def findImageDir (fs : FileTree) (seqPath : String) (imageID : Int) : String :=
  match (os_walk fs seqPath).findSome? (fun e =>
      (e.dirnames.find? (fun d => d == "I" ++ toString imageID)).map
        (fun d => pathJoin e.dirpath d)) with
  | some p => p
  | none => ""

/-- Lines 192-198: the second walk; only the inner `for f` loop breaks, so
within each walk entry the first `.nii` file wins but a later entry's hit
overwrites an earlier one — the last entry with a hit provides the final
path, and `dicom` is false as soon as any entry has a hit. -/
def findNii (fs : FileTree) (imagePath : String) : Option String :=
  ((os_walk fs imagePath).filterMap (fun e =>
      (e.filenames.find? (fun f => strEndsWith f ".nii")).map
        (fun f => pathJoin e.dirpath f))).getLast?

/-- Lines 175-206 for one row: locate the archive directory under
`source_dir/Subject_ID/Sequence`, then classify it. -/
def locate_row (fs : FileTree) (source_dir : String) (r : OutRow) : LocatedRow :=
  match findNii fs (findImageDir fs
      (pathJoin (pathJoin source_dir r.Subject_ID) r.Sequence) r.Image_ID) with
  | some nii => { row := r, Is_Dicom := false, Path := nii }
  | none =>
    { row := r
      Is_Dicom := true
      Path := findImageDir fs
        (pathJoin (pathJoin source_dir r.Subject_ID) r.Sequence) r.Image_ID }

/-- The whole of `compute_av45_pet_paths` (minus the tsv serialization):
assemble rows over all subjects, subtract the deny-list, attach archive
locations. -/
def compute_av45_pet_paths (fs : FileTree) (source_dir : String)
    (petqc : List QCRow) (metaList : List MetaRow) (subjsList : List String) :
    Except String (List LocatedRow) :=
  match processSubjects petqc metaList subjsList with
  | .error e => .error e
  | .ok rows => .ok ((apply_conversion_errors rows).map (locate_row fs source_dir))

/-! ### Concrete input tables used to exercise the definitions

Small synthetic `AV45QC.csv` / `PET_META_LIST.csv` fragments; the archive
filesystem is empty in all scenarios (location is exercised separately). -/

def demoFs : FileTree := fun _ => []

def demoQC1 : QCRow :=
  { RID := 1203, PASS := 1, VISCODE2 := "m06", LONIUID := "I400",
    EXAMDATE := "2012-03-03" }

def demoQC2 : QCRow :=
  { RID := 1203, PASS := 1, VISCODE2 := "m12", LONIUID := "I401",
    EXAMDATE := "2012-09-03" }

def demoM1 : MetaRow :=
  { subject := "941_S_1203", imageID := 400, seriesID := 3,
    sequence := "ADNI Brain PET Raw AV45", origProc := "Original",
    scanDate := "2012-03-03", studyID := 77, visitLabel := "ADNI2 Baseline" }

def demoM2 : MetaRow :=
  { subject := "941_S_1203", imageID := 401, seriesID := 4,
    sequence := "ADNI Brain PET Raw AV45", origProc := "Original",
    scanDate := "2012-09-03", studyID := 78, visitLabel := "ADNI2 Year 1" }

def demoRow1 : OutRow :=
  { Subject_ID := "941_S_1203", VISCODE := "m06", Visit := "ADNI2 Baseline",
    Sequence := "ADNI_Brain_PET_Raw_AV45", Scan_Date := "2012-03-03",
    Study_ID := 77, Series_ID := 3, Image_ID := 400, Original := true }

def demoRow2 : OutRow :=
  { Subject_ID := "941_S_1203", VISCODE := "m12", Visit := "ADNI2 Year 1",
    Sequence := "ADNI_Brain_PET_Raw_AV45", Scan_Date := "2012-09-03",
    Study_ID := 78, Series_ID := 4, Image_ID := 401, Original := true }

def demoLR1 : LocatedRow := { row := demoRow1, Is_Dicom := true, Path := "" }

def demoLR2 : LocatedRow := { row := demoRow2, Is_Dicom := true, Path := "" }

/-- Two passed QC rows in one visit, matched series ids 5 and 7, no
co-registered-averaged derivative for either. -/
def c1mA : MetaRow :=
  { subject := "123_S_4567", imageID := 100, seriesID := 5,
    sequence := "ADNI Brain PET Raw A", origProc := "Original",
    scanDate := "2012-01-01", studyID := 1, visitLabel := "ADNI2 Year 1" }

def c1mB : MetaRow :=
  { subject := "123_S_4567", imageID := 101, seriesID := 7,
    sequence := "ADNI Brain PET Raw B", origProc := "Original",
    scanDate := "2012-01-01", studyID := 1, visitLabel := "ADNI2 Year 1" }

def c1q5 : QCRow :=
  { RID := 4567, PASS := 1, VISCODE2 := "m12", LONIUID := "I100",
    EXAMDATE := "2012-01-01" }

def c1q7 : QCRow :=
  { RID := 4567, PASS := 1, VISCODE2 := "m12", LONIUID := "I101",
    EXAMDATE := "2012-01-01" }

def c1meta : List MetaRow := [c1mA, c1mB]

def c1normal : List (QCRow × MetaRow) := [(c1q5, c1mA), (c1q7, c1mB)]

/-- The row the code emits in the `c1` scenario: series id 7, not 5. -/
def c1selRow : OutRow :=
  { Subject_ID := "123_S_4567", VISCODE := "m12", Visit := "ADNI2 Year 1",
    Sequence := "ADNI_Brain_PET_Raw_B", Scan_Date := "2012-01-01",
    Study_ID := 1, Series_ID := 7, Image_ID := 101, Original := true }

/-- Three passed QC rows in one visit with series ids 10, 20, 30; only
series 20 has a co-registered-averaged derivative. -/
def c2m10 : MetaRow :=
  { subject := "123_S_4567", imageID := 110, seriesID := 10,
    sequence := "ADNI Brain PET Raw 10", origProc := "Original",
    scanDate := "2013-01-01", studyID := 2, visitLabel := "ADNI2 Year 2" }

def c2m20 : MetaRow :=
  { subject := "123_S_4567", imageID := 120, seriesID := 20,
    sequence := "ADNI Brain PET Raw 20", origProc := "Original",
    scanDate := "2013-01-01", studyID := 2, visitLabel := "ADNI2 Year 2" }

def c2m30 : MetaRow :=
  { subject := "123_S_4567", imageID := 130, seriesID := 30,
    sequence := "ADNI Brain PET Raw 30", origProc := "Original",
    scanDate := "2013-01-01", studyID := 2, visitLabel := "ADNI2 Year 2" }

def c2coreg : MetaRow :=
  { subject := "123_S_4567", imageID := 121, seriesID := 20,
    sequence := "AV45 Co-registered, Averaged", origProc := "Processed",
    scanDate := "2013-01-01", studyID := 2, visitLabel := "ADNI2 Year 2" }

def c2qc10 : QCRow :=
  { RID := 4567, PASS := 1, VISCODE2 := "m24", LONIUID := "I110",
    EXAMDATE := "2013-01-01" }

def c2qc20 : QCRow :=
  { RID := 4567, PASS := 1, VISCODE2 := "m24", LONIUID := "I120",
    EXAMDATE := "2013-01-01" }

def c2qc30 : QCRow :=
  { RID := 4567, PASS := 1, VISCODE2 := "m24", LONIUID := "I130",
    EXAMDATE := "2013-01-01" }

def c2meta : List MetaRow := [c2m10, c2m20, c2m30, c2coreg]

def c2normal : List (QCRow × MetaRow) :=
  [(c2qc10, c2m10), (c2qc20, c2m20), (c2qc30, c2m30)]

/-- A deny-listed visit (`128_S_2220`, `m48`) that would resolve fine,
plus a second subject with the same visit code that must survive. -/
def c4qcD : QCRow :=
  { RID := 2220, PASS := 1, VISCODE2 := "m48", LONIUID := "I200",
    EXAMDATE := "2013-05-05" }

def c4qcO : QCRow :=
  { RID := 1203, PASS := 1, VISCODE2 := "m48", LONIUID := "I210",
    EXAMDATE := "2013-06-06" }

def c4mD : MetaRow :=
  { subject := "128_S_2220", imageID := 200, seriesID := 9,
    sequence := "ADNI Brain PET Raw", origProc := "Original",
    scanDate := "2013-05-05", studyID := 5, visitLabel := "ADNI2 Year 4" }

def c4mO : MetaRow :=
  { subject := "941_S_1203", imageID := 210, seriesID := 11,
    sequence := "ADNI Brain PET Raw", origProc := "Original",
    scanDate := "2013-06-06", studyID := 6, visitLabel := "ADNI2 Year 4" }

def c4deniedRow : OutRow :=
  { Subject_ID := "128_S_2220", VISCODE := "m48", Visit := "ADNI2 Year 4",
    Sequence := "ADNI_Brain_PET_Raw", Scan_Date := "2013-05-05",
    Study_ID := 5, Series_ID := 9, Image_ID := 200, Original := true }

def c4otherRow : OutRow :=
  { Subject_ID := "941_S_1203", VISCODE := "m48", Visit := "ADNI2 Year 4",
    Sequence := "ADNI_Brain_PET_Raw", Scan_Date := "2013-06-06",
    Study_ID := 6, Series_ID := 11, Image_ID := 210, Original := true }

def c4otherLR : LocatedRow := { row := c4otherRow, Is_Dicom := true, Path := "" }

/-- A QC row whose image id matches no metadata row, but whose exam date
and the tracer name match a metadata row: only the secondary fallback
fires. -/
def c5q : QCRow :=
  { RID := 4567, PASS := 1, VISCODE2 := "m36", LONIUID := "I500",
    EXAMDATE := "2012-02-02" }

def c5m : MetaRow :=
  { subject := "123_S_4567", imageID := 999, seriesID := 13,
    sequence := "ADNI AV45 raw", origProc := "Original",
    scanDate := "2012-02-02", studyID := 3, visitLabel := "ADNI2 Year 3" }

def c5meta : List MetaRow := [c5m]

/-- A raw acquisition whose series id has a co-registered-averaged
derivative with a different image id. -/
def c6q : QCRow :=
  { RID := 4567, PASS := 1, VISCODE2 := "m06", LONIUID := "I300",
    EXAMDATE := "2011-07-07" }

def c6orig : MetaRow :=
  { subject := "123_S_4567", imageID := 300, seriesID := 4,
    sequence := "ADNI Brain PET Raw", origProc := "Original",
    scanDate := "2011-07-07", studyID := 4, visitLabel := "ADNI2 Baseline" }

def c6deriv : MetaRow :=
  { subject := "123_S_4567", imageID := 301, seriesID := 4,
    sequence := "AV45 Co-registered, Averaged", origProc := "Processed",
    scanDate := "2011-07-07", studyID := 4, visitLabel := "ADNI2 Baseline" }

def c6meta : List MetaRow := [c6orig, c6deriv]

/-- The row the code emits in the `c6` scenario: the derivative's image
id, original flag cleared. -/
def c6r : OutRow :=
  { Subject_ID := "123_S_4567", VISCODE := "m06", Visit := "ADNI2 Baseline",
    Sequence := "AV45_Co-registered,_Averaged", Scan_Date := "2011-07-07",
    Study_ID := 4, Series_ID := 4, Image_ID := 301, Original := false }

/-- A two-row visit where the second QC row's image id (`I601`) matches no
metadata row of the subject. -/
def c9q1 : QCRow :=
  { RID := 4567, PASS := 1, VISCODE2 := "m12", LONIUID := "I600",
    EXAMDATE := "2012-01-01" }

def c9q2 : QCRow :=
  { RID := 4567, PASS := 1, VISCODE2 := "m12", LONIUID := "I601",
    EXAMDATE := "2012-01-01" }

def c9m1 : MetaRow :=
  { subject := "123_S_4567", imageID := 600, seriesID := 21,
    sequence := "ADNI Brain PET Raw", origProc := "Original",
    scanDate := "2012-01-01", studyID := 8, visitLabel := "ADNI2 Year 1" }

def c9m2 : MetaRow :=
  { subject := "123_S_4567", imageID := 601, seriesID := 22,
    sequence := "ADNI Brain PET Raw again", origProc := "Original",
    scanDate := "2012-01-01", studyID := 8, visitLabel := "ADNI2 Year 1" }

/-! ### Generic list and string helper lemmas -/

theorem mem_of_head? {α : Type} {l : List α} {a : α} (h : l.head? = some a) : a ∈ l := by
  cases l with
  | nil => simp at h
  | cons x xs =>
    have hx : a = x := by
      simp only [List.head?] at h
      exact (Option.some.inj h).symm
    rw [hx]
    exact List.mem_cons_self x xs

theorem mem_of_getLast? {α : Type} : ∀ {l : List α} {a : α}, l.getLast? = some a → a ∈ l
  | [], _, h => by simp at h
  | [x], a, h => by
    have hx : a = x := by
      simp only [List.getLast?_singleton] at h
      exact (Option.some.inj h).symm
    rw [hx]
    exact List.mem_cons_self x []
  | x :: y :: ys, a, h => by
    rw [List.getLast?_cons_cons] at h
    exact List.mem_cons_of_mem x (mem_of_getLast? h)

theorem head?_filter_some {α : Type} {p : α → Bool} {l : List α} {a : α}
    (h : (l.filter p).head? = some a) : a ∈ l ∧ p a = true :=
  List.mem_filter.mp (mem_of_head? h)

theorem head?_filter_eq_find? {α : Type} (p : α → Bool) :
    ∀ l : List α, (l.filter p).head? = l.find? p
  | [] => rfl
  | x :: xs => by
    by_cases hx : p x = true
    · rw [List.filter_cons_of_pos hx, List.find?_cons_of_pos _ hx]
      rfl
    · rw [List.filter_cons_of_neg hx, List.find?_cons_of_neg _ hx]
      exact head?_filter_eq_find? p xs

theorem filter_head?_of_ex {α : Type} {p : α → Bool} {l : List α}
    (h : ∃ a ∈ l, p a = true) : ∃ a, (l.filter p).head? = some a := by
  rcases h with ⟨a, ha, hpa⟩
  have hne : l.filter p ≠ [] := by
    intro hnil
    exact absurd hpa ((List.filter_eq_nil_iff.mp hnil) a ha)
  cases hf : l.filter p with
  | nil => exact absurd hf hne
  | cons b bs => exact ⟨b, rfl⟩

/-- `find?` on a descending, duplicate-free list returns the given element
as soon as it satisfies the predicate and every strictly larger key fails
it. -/
theorem find?_descending {α : Type} (key : α → Int) (P : α → Bool) :
    ∀ (l : List α) (q : α), l.Pairwise (fun a b => key b ≤ key a) →
      l.Pairwise (fun a b => key a ≠ key b) → q ∈ l → P q = true →
      (∀ x ∈ l, key q < key x → P x = false) → l.find? P = some q
  | [], q, _, _, hq, _, _ => absurd hq (List.not_mem_nil q)
  | x :: xs, q, hdesc, hdist, hq, hPq, hhi => by
    rcases List.mem_cons.mp hq with hqx | hqxs
    · subst hqx
      exact List.find?_cons_of_pos xs hPq
    · have hxq_le : key q ≤ key x :=
        (List.pairwise_cons.mp hdesc).1 q hqxs
      have hxq_ne : key x ≠ key q :=
        (List.pairwise_cons.mp hdist).1 q hqxs
      have hlt : key q < key x := lt_of_le_of_ne hxq_le (fun h => hxq_ne h.symm)
      have hPx : P x = false := hhi x (List.mem_cons_self x xs) hlt
      rw [List.find?_cons_of_neg xs (by simp [hPx])]
      exact find?_descending key P xs q (List.pairwise_cons.mp hdesc).2
        (List.pairwise_cons.mp hdist).2 hqxs hPq
        (fun y hy hlt' => hhi y (List.mem_cons_of_mem x hy) hlt')

/-! ### The sanitizer never introduces an early-frame marker

`replace_sequence_chars` maps each character either to itself or to `'_'`,
and `'_'` does not occur in `"early"`; hence a sequence name free of the
(case-folded) marker stays free of it after sanitization. -/

theorem beginsWith_map {g h : Char → Char} (hgh : ∀ c, g c = h c ∨ g c = '_') :
    ∀ (needle t : List Char), (∀ c ∈ needle, c ≠ '_') →
      beginsWith needle (t.map g) = true → beginsWith needle (t.map h) = true
  | [], _, _, _ => rfl
  | c :: cs, [], _, hb => by simp [beginsWith] at hb
  | c :: cs, d :: ds, hfree, hb => by
    simp only [List.map_cons, beginsWith, Bool.and_eq_true, beq_iff_eq] at hb ⊢
    rcases hb with ⟨hcd, hrest⟩
    refine ⟨?_, beginsWith_map hgh cs ds
      (fun a ha => hfree a (List.mem_cons_of_mem c ha)) hrest⟩
    rcases hgh d with hd | hd
    · rw [← hd]; exact hcd
    · exact absurd (hcd.trans hd) (hfree c (List.mem_cons_self c cs))

theorem containsSub_map {g h : Char → Char} (hgh : ∀ c, g c = h c ∨ g c = '_')
    (needle : List Char) (hfree : ∀ c ∈ needle, c ≠ '_') :
    ∀ t : List Char, containsSub needle (t.map g) = true →
      containsSub needle (t.map h) = true
  | [], hc => hc
  | d :: ds, hc => by
    simp only [List.map_cons, containsSub, Bool.or_eq_true] at hc ⊢
    rcases hc with hb | hrec
    · exact Or.inl (by
        have := beginsWith_map hgh needle (d :: ds) hfree (by simpa using hb)
        simpa using this)
    · exact Or.inr (containsSub_map hgh needle hfree ds hrec)

theorem toLower_sanitize (c : Char) :
    Char.toLower (sanitizeChar c) = Char.toLower c ∨
      Char.toLower (sanitizeChar c) = '_' := by
  unfold sanitizeChar
  by_cases hb : c ∈ badPathChars
  · rw [if_pos hb]
    exact Or.inr (by decide)
  · rw [if_neg hb]
    exact Or.inl rfl

theorem containsEarly_replace {s : String} (h : containsEarly s = false) :
    containsEarly (replace_sequence_chars s) = false := by
  by_contra hne
  have htrue : containsEarly (replace_sequence_chars s) = true := by
    cases hv : containsEarly (replace_sequence_chars s)
    · exact absurd hv hne
    · rfl
  have hexp : containsSub ("early".toList)
      (s.toList.map (fun c => Char.toLower (sanitizeChar c))) = true := by
    have : lowerStr (replace_sequence_chars s)
        = s.toList.map (fun c => Char.toLower (sanitizeChar c)) := by
      show (s.toList.map sanitizeChar).map Char.toLower = _
      rw [List.map_map]
      rfl
    rw [containsEarly, this] at htrue
    exact htrue
  have hmap := containsSub_map (g := fun c => Char.toLower (sanitizeChar c))
    (h := Char.toLower) (fun c => toLower_sanitize c) ("early".toList)
    (by decide) s.toList hexp
  rw [containsEarly, lowerStr] at h
  rw [h] at hmap
  exact Bool.false_ne_true hmap

/-! ### Facts about the per-visit resolution -/

theorem uniqueAux_mem {a : String} :
    ∀ (l seen : List String), a ∈ uniqueAux seen l → a ∈ l ∧ a ∉ seen
  | [], _, h => by simp [uniqueAux] at h
  | x :: xs, seen, h => by
    by_cases hx : seen.contains x
    · rw [uniqueAux, if_pos hx] at h
      rcases uniqueAux_mem xs seen h with ⟨h1, h2⟩
      exact ⟨List.mem_cons_of_mem x h1, h2⟩
    · rw [uniqueAux, if_neg hx] at h
      rcases List.mem_cons.mp h with hax | hrec
      · subst hax
        refine ⟨List.mem_cons_self a xs, ?_⟩
        intro hmem
        exact hx (List.elem_iff.mpr hmem)
      · rcases uniqueAux_mem xs (x :: seen) hrec with ⟨h1, h2⟩
        exact ⟨List.mem_cons_of_mem x h1,
          fun hmem => h2 (List.mem_cons_of_mem x hmem)⟩

theorem uniqueAux_nodup : ∀ (l seen : List String), (uniqueAux seen l).Nodup
  | [], _ => List.nodup_nil
  | x :: xs, seen => by
    by_cases hx : seen.contains x
    · rw [uniqueAux, if_pos hx]
      exact uniqueAux_nodup xs seen
    · rw [uniqueAux, if_neg hx]
      refine List.nodup_cons.mpr ⟨?_, uniqueAux_nodup xs (x :: seen)⟩
      intro hmem
      exact (uniqueAux_mem xs (x :: seen) hmem).2 (List.mem_cons_self x seen)

theorem uniqueKeep_nodup (l : List String) : (uniqueKeep l).Nodup :=
  uniqueAux_nodup l []

theorem collectNormal_mem {meta : List MetaRow} :
    ∀ {qcs : List QCRow} {normal : List (QCRow × MetaRow)},
      collectNormal meta qcs = .ok normal → ∀ pm ∈ normal, pm.1 ∈ qcs := by
  intro qcs
  induction qcs with
  | nil => intro normal h pm hpm; rw [collectNormal] at h; cases h; simp at hpm
  | cons q qs ih =>
    intro normal h pm hpm
    rw [collectNormal] at h
    cases hhead : (meta.filter (fun m => m.imageID == int_of_loniuid q.LONIUID)).head? with
    | none => rw [hhead] at h; cases h
    | some m =>
      rw [hhead] at h
      cases hrec : collectNormal meta qs with
      | error e => rw [hrec] at h; cases h
      | ok rest =>
        rw [hrec] at h
        cases h
        by_cases he : containsEarly m.sequence
        · rw [if_pos he] at hpm
          exact List.mem_cons_of_mem q (ih hrec pm hpm)
        · rw [if_neg he] at hpm
          rcases List.mem_cons.mp hpm with hpq | hpr
          · rw [hpq]
            exact List.mem_cons_self q qs
          · exact List.mem_cons_of_mem q (ih hrec pm hpr)

theorem collectNormal_ok_of {meta : List MetaRow} :
    ∀ {qcs : List QCRow},
      (∀ q ∈ qcs, ∃ m ∈ meta, m.imageID = int_of_loniuid q.LONIUID) →
      ∃ normal, collectNormal meta qcs = .ok normal := by
  intro qcs
  induction qcs with
  | nil => intro _; exact ⟨[], rfl⟩
  | cons q qs ih =>
    intro hall
    have hq := hall q (List.mem_cons_self q qs)
    have hex : ∃ m ∈ meta, (fun m => m.imageID == int_of_loniuid q.LONIUID) m = true := by
      rcases hq with ⟨m, hm, heq⟩
      exact ⟨m, hm, beq_iff_eq.mpr heq⟩
    rcases filter_head?_of_ex hex with ⟨m, hm⟩
    rcases ih (fun x hx => hall x (List.mem_cons_of_mem q hx)) with ⟨rest, hrest⟩
    refine ⟨if containsEarly m.sequence then rest else (q, m) :: rest, ?_⟩
    rw [collectNormal, hm, hrest]

theorem collectNormal_error_of {meta : List MetaRow} {q : QCRow} :
    ∀ {qcs : List QCRow}, q ∈ qcs →
      (∀ m ∈ meta, ¬ m.imageID = int_of_loniuid q.LONIUID) →
      ∃ e, collectNormal meta qcs = .error e := by
  intro qcs
  induction qcs with
  | nil => intro h _; exact absurd h (List.not_mem_nil q)
  | cons q' qs ih =>
    intro hq hnone
    cases hhead : (meta.filter (fun m => m.imageID == int_of_loniuid q'.LONIUID)).head? with
    | none =>
      refine ⟨"empty iloc for " ++ q'.LONIUID, ?_⟩
      rw [collectNormal, hhead]
    | some m =>
      have hq' : q ∈ qs := by
        rcases List.mem_cons.mp hq with hqq | hqs
        · exfalso
          rcases head?_filter_some hhead with ⟨hm, hpm⟩
          rw [← hqq] at hpm
          exact hnone m hm (beq_iff_eq.mp hpm)
        · exact hqs
      rcases ih hq' hnone with ⟨e, he⟩
      refine ⟨e, ?_⟩
      rw [collectNormal, hhead, he]

theorem select_among_mem {meta : List MetaRow} {normal : List (QCRow × MetaRow)}
    {x : QCRow} (h : select_among meta normal = some x) : ∃ p ∈ normal, p.1 = x := by
  rw [select_among] at h
  cases hf : (List.insertionSort (fun a b => a.2.seriesID ≤ b.2.seriesID)
      normal).reverse.find? (fun p => hasCoregAvg meta p.2.seriesID) with
  | some p =>
    rw [hf] at h
    refine ⟨p, ?_, Option.some.inj h⟩
    exact ((List.perm_insertionSort _ normal).mem_iff).mp
      (List.mem_reverse.mp (List.mem_of_find?_eq_some hf))
  | none =>
    rw [hf] at h
    cases hh : (List.insertionSort (fun a b => a.2.seriesID ≤ b.2.seriesID)
        normal).reverse.head? with
    | none => rw [hh] at h; cases h
    | some p =>
      rw [hh] at h
      refine ⟨p, ?_, Option.some.inj h⟩
      exact ((List.perm_insertionSort _ normal).mem_iff).mp
        (List.mem_reverse.mp (mem_of_head? hh))

theorem resolve_qc_mem {meta : List MetaRow} {qcs : List QCRow} {qc : QCRow}
    (h : resolve_qc meta qcs = .ok (some qc)) : qc ∈ qcs := by
  rw [resolve_qc] at h
  by_cases hlen : 1 < qcs.length
  · rw [if_pos hlen] at h
    cases hc : collectNormal meta qcs with
    | error e => rw [hc] at h; cases h
    | ok normal =>
      rw [hc] at h
      dsimp only at h
      by_cases hemp : normal.isEmpty
      · rw [if_pos hemp] at h; cases h
      · rw [if_neg hemp] at h
        by_cases hone : normal.length == 1
        · rw [if_pos hone] at h
          cases hh : normal.head? with
          | none => rw [hh] at h; cases h
          | some pm =>
            rw [hh] at h
            have : pm.1 = qc := by
              simpa using Option.some.inj (Except.ok.inj h)
            rw [← this]
            exact collectNormal_mem hc pm (mem_of_head? hh)
        · rw [if_neg hone] at h
          rcases select_among_mem (Except.ok.inj h) with ⟨pm, hpm, hfst⟩
          rw [← hfst]
          exact collectNormal_mem hc pm hpm
  · rw [if_neg hlen] at h
    exact mem_of_head? (Except.ok.inj h)

theorem processVisit_inv {subj : String} {meta : List MetaRow} {v : String}
    {qcs : List QCRow} {r : OutRow}
    (h : processVisit subj meta v qcs = .ok (some r)) :
    ∃ qc orig, resolve_qc meta qcs = .ok (some qc) ∧
      raw_acquisition_match meta qc = some orig ∧
      r = mkOutRow subj qc (select_variant meta orig) := by
  rw [processVisit] at h
  cases hq : resolve_qc meta qcs with
  | error e => rw [hq] at h; cases h
  | ok o =>
    rw [hq] at h
    cases o with
    | none => cases h
    | some qc =>
      dsimp only at h
      cases hr : raw_acquisition_match meta qc with
      | none => rw [hr] at h; cases h
      | some orig =>
        rw [hr] at h
        exact ⟨qc, orig, rfl, hr,
          (Option.some.inj (Except.ok.inj h)).symm⟩

theorem raw_match_props {meta : List MetaRow} {q : QCRow} {m : MetaRow}
    (h : raw_acquisition_match meta q = some m) :
    m ∈ meta ∧ (primaryPred q m = true ∨ secondaryPred q m = true) := by
  rw [raw_acquisition_match] at h
  by_cases hp : (meta.filter (primaryPred q)).length < 1
  · rw [if_pos hp] at h
    rcases head?_filter_some h with ⟨hm, hpm⟩
    exact ⟨hm, Or.inr hpm⟩
  · rw [if_neg hp] at h
    rcases head?_filter_some h with ⟨hm, hpm⟩
    exact ⟨hm, Or.inl hpm⟩

theorem select_variant_cases (meta : List MetaRow) (orig : MetaRow) :
    (select_variant meta orig = (orig, true) ∧
      (meta.filter (isCoregOf orig)).head? = none) ∨
    (∃ a, (meta.filter (isCoregOf orig)).head? = some a ∧
      select_variant meta orig = (a, false)) := by
  rw [select_variant]
  cases hh : (meta.filter (isCoregOf orig)).head? with
  | none => exact Or.inl ⟨rfl, rfl⟩
  | some a => exact Or.inr ⟨a, rfl, rfl⟩

/-! ### Row-level facts lifted through the pipeline -/

theorem processVisit_no_early {subj : String} {meta : List MetaRow} {v : String}
    {qcs : List QCRow} {r : OutRow}
    (h : processVisit subj meta v qcs = .ok (some r)) :
    containsEarly r.Sequence = false := by
  rcases processVisit_inv h with ⟨qc, orig, _, hr, hrow⟩
  have hgoal : r.Sequence
      = replace_sequence_chars (select_variant meta orig).1.sequence := by
    rw [hrow]; rfl
  rcases select_variant_cases meta orig with ⟨hsv, _⟩ | ⟨a, ha, hsv⟩
  · have hseq : containsEarly orig.sequence = false := by
      rcases raw_match_props hr with ⟨_, hp | hp⟩
      · simp only [primaryPred, Bool.and_eq_true, Bool.not_eq_true'] at hp
        exact hp.2
      · simp only [secondaryPred, Bool.and_eq_true, Bool.not_eq_true'] at hp
        exact hp.1.2
    rw [hgoal, hsv]
    exact containsEarly_replace hseq
  · have haseq : a.sequence = coregLabel := by
      have := (head?_filter_some ha).2
      simp only [isCoregOf, Bool.and_eq_true, beq_iff_eq] at this
      exact this.1
    rw [hgoal, hsv]
    show containsEarly (replace_sequence_chars a.sequence) = false
    rw [haseq]
    decide

theorem processVisit_fields {subj : String} {meta : List MetaRow} {v : String}
    {qcs : List QCRow} {r : OutRow}
    (h : processVisit subj meta v qcs = .ok (some r)) :
    r.Subject_ID = subj ∧ ∃ qc ∈ qcs, r.VISCODE = qc.VISCODE2 := by
  rcases processVisit_inv h with ⟨qc, orig, hq, _, hrow⟩
  exact ⟨by rw [hrow]; rfl, qc, resolve_qc_mem hq, by rw [hrow]; rfl⟩

theorem processVisit_viscode {subj : String} {meta : List MetaRow} {v : String}
    {qcSubj : List QCRow} {r : OutRow}
    (h : processVisit subj meta v (qcSubj.filter (fun q => q.VISCODE2 == v))
      = .ok (some r)) : r.VISCODE = v := by
  rcases processVisit_fields h with ⟨_, qc, hqc, hvis⟩
  rw [hvis]
  exact beq_iff_eq.mp (List.mem_filter.mp hqc).2

theorem processVisits_origin {subj : String} {meta : List MetaRow} {qcSubj : List QCRow} :
    ∀ {vs : List String} {rows : List OutRow},
      processVisits subj meta qcSubj vs = .ok rows →
      ∀ r ∈ rows, ∃ v ∈ vs,
        processVisit subj meta v (qcSubj.filter (fun q => q.VISCODE2 == v))
          = .ok (some r) := by
  intro vs
  induction vs with
  | nil =>
    intro rows h r hr
    rw [processVisits] at h
    cases h
    simp at hr
  | cons v vs ih =>
    intro rows h r hr
    rw [processVisits] at h
    cases hv : processVisit subj meta v (qcSubj.filter (fun q => q.VISCODE2 == v)) with
    | error e => rw [hv] at h; cases h
    | ok r? =>
      rw [hv] at h
      cases hrec : processVisits subj meta qcSubj vs with
      | error e => rw [hrec] at h; cases h
      | ok rest =>
        rw [hrec] at h
        cases h
        rcases List.mem_append.mp hr with h1 | h2
        · cases r? with
          | none => simp at h1
          | some r0 =>
            have hrr : r = r0 := by simpa using h1
            exact ⟨v, List.mem_cons_self v vs, by rw [hrr]; exact hv⟩
        · rcases ih hrec r h2 with ⟨v', hv', hpv⟩
          exact ⟨v', List.mem_cons_of_mem v hv', hpv⟩

theorem processVisits_viscode_sublist {subj : String} {meta : List MetaRow}
    {qcSubj : List QCRow} :
    ∀ {vs : List String} {rows : List OutRow},
      processVisits subj meta qcSubj vs = .ok rows →
      List.Sublist (rows.map (fun r => r.VISCODE)) vs := by
  intro vs
  induction vs with
  | nil =>
    intro rows h
    rw [processVisits] at h
    cases h
    exact List.Sublist.refl []
  | cons v vs ih =>
    intro rows h
    rw [processVisits] at h
    cases hv : processVisit subj meta v (qcSubj.filter (fun q => q.VISCODE2 == v)) with
    | error e => rw [hv] at h; cases h
    | ok r? =>
      rw [hv] at h
      cases hrec : processVisits subj meta qcSubj vs with
      | error e => rw [hrec] at h; cases h
      | ok rest =>
        rw [hrec] at h
        cases h
        cases r? with
        | none => exact List.Sublist.cons v (ih hrec)
        | some r0 =>
          have hvr : r0.VISCODE = v := processVisit_viscode hv
          show List.Sublist (r0.VISCODE :: rest.map (fun r => r.VISCODE)) (v :: vs)
          rw [hvr]
          exact List.Sublist.cons₂ v (ih hrec)

theorem processSubject_inv {petqc : List QCRow} {metaList : List MetaRow}
    {subj : String} {rs : List OutRow}
    (h : processSubject petqc metaList subj = .ok rs) :
    rs = [] ∨
      processVisits subj (metaList.filter (fun m => m.subject == subj))
        (petqc.filter (fun q => q.PASS == 1 && q.RID == rid_of_subject subj))
        (uniqueKeep ((petqc.filter
          (fun q => q.PASS == 1 && q.RID == rid_of_subject subj)).map
            (fun q => q.VISCODE2))) = .ok rs := by
  rw [processSubject] at h
  by_cases hm : (metaList.filter (fun m => m.subject == subj)).length < 1
  · rw [if_pos hm] at h
    exact Or.inl (Except.ok.inj h).symm
  · rw [if_neg hm] at h
    exact Or.inr h

theorem processSubject_origin {petqc : List QCRow} {metaList : List MetaRow}
    {subj : String} {rs : List OutRow}
    (h : processSubject petqc metaList subj = .ok rs) :
    ∀ r ∈ rs, ∃ v qcs,
      processVisit subj (metaList.filter (fun m => m.subject == subj)) v qcs
        = .ok (some r) := by
  intro r hr
  rcases processSubject_inv h with hnil | hvs
  · rw [hnil] at hr; simp at hr
  · rcases processVisits_origin hvs r hr with ⟨v, _, hpv⟩
    exact ⟨v, _, hpv⟩

theorem processSubject_subject {petqc : List QCRow} {metaList : List MetaRow}
    {subj : String} {rs : List OutRow}
    (h : processSubject petqc metaList subj = .ok rs) :
    ∀ r ∈ rs, r.Subject_ID = subj := by
  intro r hr
  rcases processSubject_origin h r hr with ⟨v, qcs, hpv⟩
  exact (processVisit_fields hpv).1

theorem processSubject_pairwise {petqc : List QCRow} {metaList : List MetaRow}
    {subj : String} {rs : List OutRow}
    (h : processSubject petqc metaList subj = .ok rs) :
    rs.Pairwise (fun a b => a.VISCODE ≠ b.VISCODE) := by
  rcases processSubject_inv h with hnil | hvs
  · rw [hnil]; exact List.Pairwise.nil
  · have hsub := processVisits_viscode_sublist hvs
    have hnd : (rs.map (fun r => r.VISCODE)).Nodup :=
      List.Nodup.sublist hsub (uniqueKeep_nodup _)
    exact List.pairwise_map.mp hnd

theorem processSubjects_origin {petqc : List QCRow} {metaList : List MetaRow} :
    ∀ {subjs : List String} {arows : List OutRow},
      processSubjects petqc metaList subjs = .ok arows →
      ∀ r ∈ arows, ∃ s ∈ subjs, ∃ rs,
        processSubject petqc metaList s = .ok rs ∧ r ∈ rs := by
  intro subjs
  induction subjs with
  | nil =>
    intro arows h r hr
    rw [processSubjects] at h
    cases h
    simp at hr
  | cons s ss ih =>
    intro arows h r hr
    rw [processSubjects] at h
    cases hs : processSubject petqc metaList s with
    | error e => rw [hs] at h; cases h
    | ok rs =>
      rw [hs] at h
      cases hrec : processSubjects petqc metaList ss with
      | error e => rw [hrec] at h; cases h
      | ok rest =>
        rw [hrec] at h
        cases h
        rcases List.mem_append.mp hr with h1 | h2
        · exact ⟨s, List.mem_cons_self s ss, rs, hs, h1⟩
        · rcases ih hrec r h2 with ⟨s', hs', rs', hps', hr'⟩
          exact ⟨s', List.mem_cons_of_mem s hs', rs', hps', hr'⟩

theorem processSubjects_pairwise {petqc : List QCRow} {metaList : List MetaRow} :
    ∀ {subjs : List String} {arows : List OutRow},
      subjs.Nodup → processSubjects petqc metaList subjs = .ok arows →
      arows.Pairwise (fun a b =>
        ¬(a.Subject_ID = b.Subject_ID ∧ a.VISCODE = b.VISCODE)) := by
  intro subjs
  induction subjs with
  | nil =>
    intro arows _ h
    rw [processSubjects] at h
    cases h
    exact List.Pairwise.nil
  | cons s ss ih =>
    intro arows hnd h
    rw [processSubjects] at h
    cases hs : processSubject petqc metaList s with
    | error e => rw [hs] at h; cases h
    | ok rs =>
      rw [hs] at h
      cases hrec : processSubjects petqc metaList ss with
      | error e => rw [hrec] at h; cases h
      | ok rest =>
        rw [hrec] at h
        cases h
        rcases List.nodup_cons.mp hnd with ⟨hsnot, hssnd⟩
        refine List.pairwise_append.mpr ⟨?_, ih hssnd hrec, ?_⟩
        · exact (processSubject_pairwise hs).imp
            (fun hne hand => hne hand.2)
        · intro a ha b hb hand
          have has : a.Subject_ID = s := processSubject_subject hs a ha
          rcases processSubjects_origin hrec b hb with ⟨s', hs', rs', hps', hb'⟩
          have hbs : b.Subject_ID = s' := processSubject_subject hps' b hb'
          rw [has, hbs] at hand
          exact hsnot (hand.1 ▸ hs')

theorem compute_ok_elim {fs : FileTree} {src : String} {petqc : List QCRow}
    {metaList : List MetaRow} {subjs : List String} {rows : List LocatedRow}
    (h : compute_av45_pet_paths fs src petqc metaList subjs = .ok rows) :
    ∃ arows, processSubjects petqc metaList subjs = .ok arows ∧
      rows = (apply_conversion_errors arows).map (locate_row fs src) := by
  rw [compute_av45_pet_paths] at h
  cases hp : processSubjects petqc metaList subjs with
  | error e => rw [hp] at h; cases h
  | ok arows =>
    rw [hp] at h
    exact ⟨arows, rfl, (Except.ok.inj h).symm⟩

/-! ### Facts about the archive locator -/

theorem locate_row_row (fs : FileTree) (src : String) (r : OutRow) :
    (locate_row fs src r).row = r := by
  rw [locate_row]
  cases findNii fs (findImageDir fs
      (pathJoin (pathJoin src r.Subject_ID) r.Sequence) r.Image_ID) <;> rfl

theorem findImageDir_none {fs : FileTree} {seqPath : String} {imageID : Int}
    (h : ∀ e ∈ os_walk fs seqPath, ∀ d ∈ e.dirnames, ¬ d = "I" ++ toString imageID) :
    findImageDir fs seqPath imageID = "" := by
  rw [findImageDir]
  have hnone : (os_walk fs seqPath).findSome? (fun e =>
      (e.dirnames.find? (fun d => d == "I" ++ toString imageID)).map
        (fun d => pathJoin e.dirpath d)) = none := by
    rw [List.findSome?_eq_none_iff]
    intro e he
    cases hfind : e.dirnames.find? (fun d => d == "I" ++ toString imageID) with
    | none => rfl
    | some d =>
      have hp := List.find?_some hfind
      exact absurd (beq_iff_eq.mp hp)
        (h e he d (List.mem_of_find?_eq_some hfind))
  rw [hnone]

theorem findNii_empty (fs : FileTree) : findNii fs "" = none := by
  rw [findNii, os_walk, if_pos rfl]
  rfl

theorem pathJoin_ne_empty {a b : String} (hb : b ≠ "") : pathJoin a b ≠ "" := by
  rw [pathJoin]
  by_cases ha : a = ""
  · rw [if_pos ha]; exact hb
  · rw [if_neg ha]
    intro hcontra
    have hlen : (a ++ "/" ++ b).length = 0 := by rw [hcontra]; rfl
    rw [String.length_append, String.length_append] at hlen
    have hone : ("/" : String).length = 1 := rfl
    omega

theorem strEndsWith_ne_empty {f : String} (h : strEndsWith f ".nii" = true) :
    f ≠ "" := by
  intro hf
  rw [hf] at h
  exact absurd h (by decide)

theorem findNii_some_ne {fs : FileTree} {p nii : String}
    (h : findNii fs p = some nii) : nii ≠ "" := by
  rw [findNii] at h
  rcases List.mem_filterMap.mp (mem_of_getLast? h) with ⟨e, _, hf⟩
  cases hfind : e.filenames.find? (fun f => strEndsWith f ".nii") with
  | none => rw [hfind] at hf; cases hf
  | some f =>
    rw [hfind] at hf
    have hnii : nii = pathJoin e.dirpath f := (Option.some.inj hf).symm
    rw [hnii]
    have hp := List.find?_some hfind
    exact pathJoin_ne_empty (strEndsWith_ne_empty hp)

theorem locate_row_path_empty {fs : FileTree} {src : String} {r : OutRow}
    (h : (locate_row fs src r).Path = "") :
    (locate_row fs src r).Is_Dicom = true := by
  rw [locate_row] at h ⊢
  cases hni : findNii fs (findImageDir fs
      (pathJoin (pathJoin src r.Subject_ID) r.Sequence) r.Image_ID) with
  | none => rfl
  | some nii =>
    rw [hni] at h
    exact absurd h (findNii_some_ne hni)

theorem locate_mem_of {arows : List OutRow} (fs : FileTree) (src : String)
    {r : OutRow} (h1 : r ∈ arows) (h2 : isConversionError r = false) :
    locate_row fs src r ∈ (apply_conversion_errors arows).map (locate_row fs src) :=
  List.mem_map_of_mem _ (List.mem_filter.mpr ⟨h1, by rw [h2]; rfl⟩)

/-! ### The multi-candidate tie-break, characterized extrinsically -/

theorem select_among_finds {meta : List MetaRow} {normal : List (QCRow × MetaRow)}
    {q : QCRow × MetaRow}
    (hdist : normal.Pairwise (fun a b => a.2.seriesID ≠ b.2.seriesID))
    (hq : q ∈ normal) (hP : hasCoregAvg meta q.2.seriesID = true)
    (hhi : ∀ x ∈ normal, q.2.seriesID < x.2.seriesID →
      hasCoregAvg meta x.2.seriesID = false) :
    select_among meta normal = some q.1 := by
  haveI hTot : IsTotal (QCRow × MetaRow) (fun a b => a.2.seriesID ≤ b.2.seriesID) :=
    ⟨fun a b => le_total a.2.seriesID b.2.seriesID⟩
  haveI hTrans : IsTrans (QCRow × MetaRow) (fun a b => a.2.seriesID ≤ b.2.seriesID) :=
    ⟨fun a b c hab hbc => le_trans hab hbc⟩
  have hsorted := List.sorted_insertionSort
    (fun (a b : QCRow × MetaRow) => a.2.seriesID ≤ b.2.seriesID) normal
  have hperm := List.perm_insertionSort
    (fun (a b : QCRow × MetaRow) => a.2.seriesID ≤ b.2.seriesID) normal
  have hdesc : (List.insertionSort (fun a b => a.2.seriesID ≤ b.2.seriesID)
      normal).reverse.Pairwise (fun a b => b.2.seriesID ≤ a.2.seriesID) :=
    List.pairwise_reverse.mpr hsorted
  have hdist1 : (List.insertionSort (fun a b => a.2.seriesID ≤ b.2.seriesID)
      normal).Pairwise (fun a b => a.2.seriesID ≠ b.2.seriesID) :=
    (List.Perm.pairwise_iff (fun hab => hab.symm) hperm).mpr hdist
  have hdist2 : (List.insertionSort (fun a b => a.2.seriesID ≤ b.2.seriesID)
      normal).reverse.Pairwise (fun a b => a.2.seriesID ≠ b.2.seriesID) :=
    List.pairwise_reverse.mpr (hdist1.imp (fun hab => hab.symm))
  have hfind := find?_descending (fun p => p.2.seriesID)
    (fun p => hasCoregAvg meta p.2.seriesID)
    (List.insertionSort (fun a b => a.2.seriesID ≤ b.2.seriesID) normal).reverse q
    hdesc hdist2
    (List.mem_reverse.mpr (hperm.mem_iff.mpr hq)) hP
    (fun x hx hlt =>
      hhi x (hperm.mem_iff.mp (List.mem_reverse.mp hx)) hlt)
  rw [select_among]
  rw [hfind]

theorem select_among_fallback {meta : List MetaRow} {normal : List (QCRow × MetaRow)}
    (hne : normal ≠ [])
    (hnone : ∀ x ∈ normal, hasCoregAvg meta x.2.seriesID = false) :
    ∃ p ∈ normal, select_among meta normal = some p.1 ∧
      ∀ x ∈ normal, x.2.seriesID ≤ p.2.seriesID := by
  haveI hTot : IsTotal (QCRow × MetaRow) (fun a b => a.2.seriesID ≤ b.2.seriesID) :=
    ⟨fun a b => le_total a.2.seriesID b.2.seriesID⟩
  haveI hTrans : IsTrans (QCRow × MetaRow) (fun a b => a.2.seriesID ≤ b.2.seriesID) :=
    ⟨fun a b c hab hbc => le_trans hab hbc⟩
  have hsorted := List.sorted_insertionSort
    (fun (a b : QCRow × MetaRow) => a.2.seriesID ≤ b.2.seriesID) normal
  have hperm := List.perm_insertionSort
    (fun (a b : QCRow × MetaRow) => a.2.seriesID ≤ b.2.seriesID) normal
  have hdesc : (List.insertionSort (fun a b => a.2.seriesID ≤ b.2.seriesID)
      normal).reverse.Pairwise (fun a b => b.2.seriesID ≤ a.2.seriesID) :=
    List.pairwise_reverse.mpr hsorted
  have hfind : (List.insertionSort (fun a b => a.2.seriesID ≤ b.2.seriesID)
      normal).reverse.find? (fun p => hasCoregAvg meta p.2.seriesID) = none := by
    rw [List.find?_eq_none]
    intro x hx
    rw [hnone x (hperm.mem_iff.mp (List.mem_reverse.mp hx))]
    simp
  cases hrev : (List.insertionSort (fun a b => a.2.seriesID ≤ b.2.seriesID)
      normal).reverse with
  | nil =>
    exfalso
    have : normal.length = 0 := by
      have h1 := hperm.length_eq
      rw [← List.length_reverse, hrev] at h1
      exact h1.symm
    exact hne (List.length_eq_zero.mp this)
  | cons p t =>
    have hpmem : p ∈ normal := by
      have : p ∈ (List.insertionSort (fun a b => a.2.seriesID ≤ b.2.seriesID)
          normal).reverse := by
        rw [hrev]; exact List.mem_cons_self p t
      exact hperm.mem_iff.mp (List.mem_reverse.mp this)
    refine ⟨p, hpmem, ?_, ?_⟩
    · rw [select_among, hfind, hrev]
      rfl
    · intro x hx
      have hxrev : x ∈ (List.insertionSort (fun a b => a.2.seriesID ≤ b.2.seriesID)
          normal).reverse := List.mem_reverse.mpr (hperm.mem_iff.mpr hx)
      rw [hrev] at hxrev
      rcases List.mem_cons.mp hxrev with hxp | hxt
      · rw [hxp]
      · rw [hrev] at hdesc
        exact (List.pairwise_cons.mp hdesc).1 x hxt

/-! ### The claims -/

/-- C1, counterexample: the claim predicts that with passed QC rows whose
matched series ids are 5 and 7 and no co-registered-averaged derivative,
the row with series id 5 is selected; the code emits the series-7 row
(`normal_images[index[len(index) - 1]]` is the candidate at the last
position of the ascending argsort, i.e. the highest series id). -/
theorem claim_C1_counterexample :
    processVisit "123_S_4567" c1meta "m12" [c1q5, c1q7] = .ok (some c1selRow) ∧
    c1selRow.Series_ID = 7 ∧ ¬ c1selRow.Series_ID = 5 :=
  ⟨rfl, rfl, by decide⟩

/-- C1 (amended): when no remaining candidate has a co-registered-averaged
derivative sharing its series id, the candidate with the HIGHEST series
identifier among the remaining ties is selected (so for series ids 5 and 7
the series-7 row is selected). -/
theorem claim_C1 (meta : List MetaRow) (normal : List (QCRow × MetaRow))
    (hne : normal ≠ [])
    (hnone : ∀ x ∈ normal, hasCoregAvg meta x.2.seriesID = false) :
    ∃ p ∈ normal, select_among meta normal = some p.1 ∧
      ∀ x ∈ normal, x.2.seriesID ≤ p.2.seriesID :=
  select_among_fallback hne hnone

/-- Witness for C1 (amended) at the series ids [5, 7]: the fallback
selects a candidate whose series id bounds both 5 and 7 from above, i.e.
the series-7 candidate. -/
theorem claim_C1_witness :
    (c1normal ≠ []) ∧
    (∀ x ∈ c1normal, hasCoregAvg c1meta x.2.seriesID = false) ∧
    ∃ p ∈ c1normal, select_among c1meta c1normal = some p.1 ∧
      ∀ x ∈ c1normal, x.2.seriesID ≤ p.2.seriesID :=
  ⟨by decide, by decide, claim_C1 c1meta c1normal (by decide) (by decide)⟩

/-- C2: with several candidates left after early-frame exclusion, ordered
by series id ascending and scanned from the highest downward, the first
candidate (equivalently, on distinct series ids: the candidate with the
largest series id) whose series id has a co-registered-averaged derivative
is selected. -/
theorem claim_C2 (meta : List MetaRow) (normal : List (QCRow × MetaRow))
    (q : QCRow × MetaRow)
    (hdist : normal.Pairwise (fun a b => a.2.seriesID ≠ b.2.seriesID))
    (hq : q ∈ normal)
    (hP : hasCoregAvg meta q.2.seriesID = true)
    (hhi : ∀ x ∈ normal, q.2.seriesID < x.2.seriesID →
      hasCoregAvg meta x.2.seriesID = false) :
    select_among meta normal = some q.1 :=
  select_among_finds hdist hq hP hhi

/-- Witness for C2 at series ids [10, 20, 30] where only series 20 has a
derivative: the series-20 candidate is selected (also checked against the
full per-visit resolver on the three passed QC rows). -/
theorem claim_C2_witness :
    resolve_qc c2meta [c2qc10, c2qc20, c2qc30] = .ok (some c2qc20) ∧
    select_among c2meta c2normal = some c2qc20 :=
  ⟨rfl, claim_C2 c2meta c2normal (c2qc20, c2m20) (by decide) (by decide)
    (by decide) (by decide)⟩

/-- C5: the raw-acquisition matcher is a two-stage fallback chain — a
returned row is an `Original` row matching either the primary predicate
(image id, no early marker) or the secondary one (tracer name in the
sequence, no early marker, matching scan date); the primary match wins
when it exists; when no row matches the primary predicate any returned row
satisfies the secondary one; when neither matches, the matcher returns
nothing and the visit is skipped (`Except.ok none`, no exception). -/
theorem claim_C5 (meta : List MetaRow) (q : QCRow) :
    (∀ m, raw_acquisition_match meta q = some m →
      m ∈ meta ∧ (primaryPred q m = true ∨ secondaryPred q m = true)) ∧
    ((∃ m ∈ meta, primaryPred q m = true) →
      ∃ m, raw_acquisition_match meta q = some m ∧ primaryPred q m = true) ∧
    ((∀ m ∈ meta, primaryPred q m = false) →
      ∀ m, raw_acquisition_match meta q = some m → secondaryPred q m = true) ∧
    ((∀ m ∈ meta, primaryPred q m = false ∧ secondaryPred q m = false) →
      raw_acquisition_match meta q = none) ∧
    (∀ subj v, raw_acquisition_match meta q = none →
      processVisit subj meta v [q] = .ok none) := by
  refine ⟨fun m hm => raw_match_props hm, ?_, ?_, ?_, ?_⟩
  · intro hex
    rcases filter_head?_of_ex hex with ⟨a, ha⟩
    have hlen : ¬ (meta.filter (primaryPred q)).length < 1 := by
      intro hlt
      have hnil : meta.filter (primaryPred q) = [] :=
        List.length_eq_zero.mp (Nat.lt_one_iff.mp hlt)
      rw [hnil] at ha
      cases ha
    refine ⟨a, ?_, (head?_filter_some ha).2⟩
    rw [raw_acquisition_match, if_neg hlen]
    exact ha
  · intro hall m hm
    have hnil : meta.filter (primaryPred q) = [] :=
      List.filter_eq_nil_iff.mpr
        (fun a haa => by rw [hall a haa]; exact Bool.false_ne_true)
    rw [raw_acquisition_match, hnil, if_pos (by simp)] at hm
    exact (head?_filter_some hm).2
  · intro hall
    have hnil1 : meta.filter (primaryPred q) = [] :=
      List.filter_eq_nil_iff.mpr
        (fun a haa => by rw [(hall a haa).1]; exact Bool.false_ne_true)
    have hnil2 : meta.filter (secondaryPred q) = [] :=
      List.filter_eq_nil_iff.mpr
        (fun a haa => by rw [(hall a haa).2]; exact Bool.false_ne_true)
    rw [raw_acquisition_match, hnil1, if_pos (by simp), hnil2]
    rfl
  · intro subj v hnone
    have hrq : resolve_qc meta [q] = .ok (some q) := by
      rw [resolve_qc, if_neg (by simp)]
      rfl
    rw [processVisit, hrq]
    dsimp only
    rw [hnone]

/-- Witness for C5: a metadata table where only the secondary (tracer
name + scan date) fallback matches; the matcher returns that row and it
satisfies the secondary predicate. -/
theorem claim_C5_witness :
    raw_acquisition_match c5meta c5q = some c5m ∧
    secondaryPred c5q c5m = true :=
  ⟨rfl, (claim_C5 c5meta c5q).2.2.1 (by decide) c5m rfl⟩

/-- C6: when the matched raw acquisition's series id has a
co-registered-averaged derivative, the emitted row has `Original = false`
and carries the (first such) derivative's image id; with no derivative the
raw row's image id is used and `Original = true`. -/
theorem claim_C6 (subj : String) (meta : List MetaRow) (v : String)
    (qcs : List QCRow) (r : OutRow) (qc : QCRow) (orig : MetaRow)
    (h : processVisit subj meta v qcs = .ok (some r))
    (hq : resolve_qc meta qcs = .ok (some qc))
    (hraw : raw_acquisition_match meta qc = some orig) :
    ((∃ m ∈ meta, isCoregOf orig m = true) →
      r.Original = false ∧
      ∃ d, meta.find? (isCoregOf orig) = some d ∧ r.Image_ID = d.imageID) ∧
    ((∀ m ∈ meta, isCoregOf orig m = false) →
      r.Original = true ∧ r.Image_ID = orig.imageID) := by
  rcases processVisit_inv h with ⟨qc', orig', hq', hraw', hrow⟩
  have hqq : qc' = qc := Option.some.inj (Except.ok.inj (hq'.symm.trans hq))
  rw [hqq] at hraw'
  have hoo : orig' = orig := Option.some.inj (hraw'.symm.trans hraw)
  rw [hqq, hoo] at hrow
  constructor
  · intro hex
    rcases select_variant_cases meta orig with ⟨hsv, hhead⟩ | ⟨a, ha, hsv⟩
    · exfalso
      rcases filter_head?_of_ex hex with ⟨a, ha⟩
      rw [hhead] at ha
      cases ha
    · refine ⟨?_, a, ?_, ?_⟩
      · rw [hrow, mkOutRow, hsv]
      · rw [← head?_filter_eq_find?]
        exact ha
      · rw [hrow, mkOutRow, hsv]
  · intro hall
    have hnil : meta.filter (isCoregOf orig) = [] :=
      List.filter_eq_nil_iff.mpr
        (fun a haa => by rw [hall a haa]; exact Bool.false_ne_true)
    rcases select_variant_cases meta orig with ⟨hsv, _⟩ | ⟨a, ha, hsv⟩
    · exact ⟨by rw [hrow, mkOutRow, hsv], by rw [hrow, mkOutRow, hsv]⟩
    · exfalso
      rw [hnil] at ha
      cases ha

/-- Witness for C6: raw image id 300 with a series-4 derivative of image
id 301; the emitted row has `Original = false` and image id 301. -/
theorem claim_C6_witness : c6r.Original = false ∧ c6r.Image_ID = 301 := by
  have h := claim_C6 "123_S_4567" c6meta "m06" [c6q] c6r c6q c6orig rfl rfl rfl
  rcases h.1 ⟨c6deriv, by decide, by decide⟩ with ⟨hOrig, d, hd, hid⟩
  have heval : c6meta.find? (isCoregOf c6orig) = some c6deriv := rfl
  rw [heval] at hd
  injection hd with hd
  subst hd
  exact ⟨hOrig, hid⟩

/-- C9: with more than one passed QC row in a visit, a QC row whose image
identifier matches no metadata `Image ID` makes the resolver raise (the
empty-selection `.iloc[0]`, modelled as `Except.error`) instead of
skipping; when every such QC row has a matching metadata row, no exception
can arise from the visit. -/
theorem claim_C9 (subj : String) (meta : List MetaRow) (v : String)
    (qcs : List QCRow) (hlen : 1 < qcs.length) :
    ((∃ q ∈ qcs, ∀ m ∈ meta, ¬ m.imageID = int_of_loniuid q.LONIUID) →
      ∃ e, processVisit subj meta v qcs = .error e) ∧
    ((∀ q ∈ qcs, ∃ m ∈ meta, m.imageID = int_of_loniuid q.LONIUID) →
      ∀ e, processVisit subj meta v qcs ≠ .error e) := by
  constructor
  · intro hex
    rcases hex with ⟨q, hq, hnone⟩
    rcases collectNormal_error_of hq hnone with ⟨e, he⟩
    have hrq : resolve_qc meta qcs = .error e := by
      rw [resolve_qc, if_pos hlen, he]
    exact ⟨e, by rw [processVisit, hrq]⟩
  · intro hall e hcontra
    rcases collectNormal_ok_of hall with ⟨normal, hn⟩
    have hrq : ∃ o, resolve_qc meta qcs = Except.ok o := by
      cases ho : resolve_qc meta qcs with
      | ok o => exact ⟨o, rfl⟩
      | error e' =>
        exfalso
        rw [resolve_qc, if_pos hlen, hn] at ho
        dsimp only at ho
        by_cases h1 : normal.isEmpty
        · rw [if_pos h1] at ho; cases ho
        · rw [if_neg h1] at ho
          by_cases h2 : normal.length == 1
          · rw [if_pos h2] at ho; cases ho
          · rw [if_neg h2] at ho; cases ho
    rcases hrq with ⟨o, ho⟩
    rw [processVisit, ho] at hcontra
    cases o with
    | none => cases hcontra
    | some qc =>
      dsimp only at hcontra
      cases hr : raw_acquisition_match meta qc with
      | none => rw [hr] at hcontra; cases hcontra
      | some orig => rw [hr] at hcontra; cases hcontra

/-- Witness for C9: `I601` matches no metadata row, so the two-row visit
raises; adding the matching metadata row removes every way to raise. -/
theorem claim_C9_witness :
    (∃ e, processVisit "123_S_4567" [c9m1] "m12" [c9q1, c9q2] = .error e) ∧
    (∀ e, processVisit "123_S_4567" [c9m1, c9m2] "m12" [c9q1, c9q2]
      ≠ .error e) :=
  ⟨(claim_C9 "123_S_4567" [c9m1] "m12" [c9q1, c9q2] (by decide)).1 (by decide),
   (claim_C9 "123_S_4567" [c9m1, c9m2] "m12" [c9q1, c9q2] (by decide)).2
      (by decide)⟩

/-- C3: no row of the final output manifest has a (sanitized) sequence
name containing the early-frame marker `early` (case-insensitively):
selected images come either from an `Original` row filtered to exclude
early-frame names or from the fixed co-registered-averaged label. -/
theorem claim_C3 (fs : FileTree) (src : String) (petqc : List QCRow)
    (metaList : List MetaRow) (subjs : List String) (rows : List LocatedRow)
    (h : compute_av45_pet_paths fs src petqc metaList subjs = .ok rows) :
    ∀ lr ∈ rows, containsEarly lr.row.Sequence = false := by
  intro lr hlr
  rcases compute_ok_elim h with ⟨arows, hp, hrows⟩
  rw [hrows] at hlr
  rcases List.mem_map.mp hlr with ⟨r, hr, hlocate⟩
  have hrmem : r ∈ arows := (List.mem_filter.mp hr).1
  rcases processSubjects_origin hp r hrmem with ⟨s, _, rs, hps, hrrs⟩
  rcases processSubject_origin hps r hrrs with ⟨v, qcs, hpv⟩
  rw [← hlocate, locate_row_row]
  exact processVisit_no_early hpv

/-- Witness for C3: a two-visit demo run whose manifest rows all carry
early-free sanitized sequence names. -/
theorem claim_C3_witness : containsEarly demoLR1.row.Sequence = false :=
  claim_C3 demoFs "" [demoQC1, demoQC2] [demoM1, demoM2] ["941_S_1203"]
    [demoLR1, demoLR2] rfl demoLR1 (List.mem_cons_self demoLR1 [demoLR2])

/-- C4: no manifest row carries a deny-listed (subject, visit) pair —
concretely (`128_S_2220`, `m48`) — whatever the input tables; and the
deny-list touches nothing else: every assembled row not matching a
deny-list pair reaches the final manifest (with its archive location). -/
theorem claim_C4 (fs : FileTree) (src : String) (petqc : List QCRow)
    (metaList : List MetaRow) (subjs : List String) (arows : List OutRow)
    (rows : List LocatedRow)
    (h1 : processSubjects petqc metaList subjs = .ok arows)
    (h2 : compute_av45_pet_paths fs src petqc metaList subjs = .ok rows) :
    (∀ p ∈ conversion_errors, ∀ lr ∈ rows,
      ¬(lr.row.Subject_ID = p.1 ∧ lr.row.VISCODE = p.2)) ∧
    (∀ r ∈ arows, isConversionError r = false →
      locate_row fs src r ∈ rows) := by
  rcases compute_ok_elim h2 with ⟨arows', hp', hrows⟩
  have harr : arows' = arows := Except.ok.inj (hp'.symm.trans h1)
  subst harr
  constructor
  · intro p hpmem lr hlr hand
    rw [hrows] at hlr
    rcases List.mem_map.mp hlr with ⟨r, hrfil, hlocate⟩
    have hnc : isConversionError r = false := by
      have := (List.mem_filter.mp hrfil).2
      cases hv : isConversionError r
      · rfl
      · rw [hv] at this; cases this
    have hall := List.any_eq_false.mp hnc
    have hrp := hall p hpmem
    rw [← hlocate, locate_row_row] at hand
    exact hrp (by
      rw [Bool.and_eq_true, beq_iff_eq, beq_iff_eq]
      exact ⟨hand.1.symm, hand.2.symm⟩)
  · intro r hr hnc
    rw [hrows]
    exact locate_mem_of fs src hr hnc

/-- Witness for C4: the deny-listed visit (`128_S_2220`, `m48`) resolves
during assembly but is absent after the deny-list; the other subject's row
with the same visit code survives. -/
theorem claim_C4_witness :
    processSubjects [c4qcD, c4qcO] [c4mD, c4mO] ["128_S_2220", "941_S_1203"]
      = .ok [c4deniedRow, c4otherRow] ∧
    ¬(c4otherLR.row.Subject_ID = "128_S_2220" ∧ c4otherLR.row.VISCODE = "m48") ∧
    locate_row demoFs "" c4otherRow ∈ [c4otherLR] := by
  refine ⟨rfl, ?_, ?_⟩
  · exact (claim_C4 demoFs "" [c4qcD, c4qcO] [c4mD, c4mO]
      ["128_S_2220", "941_S_1203"] [c4deniedRow, c4otherRow] [c4otherLR]
      rfl rfl).1 ("128_S_2220", "m48") (List.mem_cons_self _ [])
      c4otherLR (List.mem_cons_self _ [])
  · exact (claim_C4 demoFs "" [c4qcD, c4qcO] [c4mD, c4mO]
      ["128_S_2220", "941_S_1203"] [c4deniedRow, c4otherRow] [c4otherLR]
      rfl rfl).2 c4otherRow (List.mem_cons_of_mem _ (List.mem_cons_self _ []))
      rfl

/-- C7: an assembled row that survives the deny-list and whose archive
walk contains no directory named `'I' + image id` anywhere still appears
in the final manifest, with an empty path (the run does not abort and the
row is not dropped). -/
theorem claim_C7 (fs : FileTree) (src : String) (petqc : List QCRow)
    (metaList : List MetaRow) (subjs : List String) (arows : List OutRow)
    (rows : List LocatedRow)
    (h1 : processSubjects petqc metaList subjs = .ok arows)
    (h2 : compute_av45_pet_paths fs src petqc metaList subjs = .ok rows) :
    ∀ r ∈ arows, isConversionError r = false →
      (∀ e ∈ os_walk fs (pathJoin (pathJoin src r.Subject_ID) r.Sequence),
        ∀ d ∈ e.dirnames, ¬ d = "I" ++ toString r.Image_ID) →
      ∃ lr ∈ rows, lr.row = r ∧ lr.Path = "" := by
  intro r hr hnc hwalk
  rcases compute_ok_elim h2 with ⟨arows', hp', hrows⟩
  have harr : arows' = arows := Except.ok.inj (hp'.symm.trans h1)
  subst harr
  refine ⟨locate_row fs src r, ?_, locate_row_row fs src r, ?_⟩
  · rw [hrows]
    exact locate_mem_of fs src hr hnc
  · have hdir : findImageDir fs
        (pathJoin (pathJoin src r.Subject_ID) r.Sequence) r.Image_ID = "" :=
      findImageDir_none hwalk
    rw [locate_row, hdir, findNii_empty]

/-- Witness for C7: the demo archive is empty, so the demo row survives
with an empty path. -/
theorem claim_C7_witness :
    ∃ lr ∈ [demoLR1, demoLR2], lr.row = demoRow1 ∧ lr.Path = "" :=
  claim_C7 demoFs "" [demoQC1, demoQC2] [demoM1, demoM2] ["941_S_1203"]
    [demoRow1, demoRow2] [demoLR1, demoLR2] rfl rfl demoRow1
    (List.mem_cons_self demoRow1 [demoRow2]) rfl (by decide)

/-- C8: over a duplicate-free subjects list, the final manifest holds at
most one row per (Subject_ID, VISCODE) pair. -/
theorem claim_C8 (fs : FileTree) (src : String) (petqc : List QCRow)
    (metaList : List MetaRow) (subjs : List String) (rows : List LocatedRow)
    (hnd : subjs.Nodup)
    (h : compute_av45_pet_paths fs src petqc metaList subjs = .ok rows) :
    rows.Pairwise (fun a b =>
      ¬(a.row.Subject_ID = b.row.Subject_ID ∧ a.row.VISCODE = b.row.VISCODE)) := by
  rcases compute_ok_elim h with ⟨arows, hp, hrows⟩
  have hpw := processSubjects_pairwise hnd hp
  have hfil : (apply_conversion_errors arows).Pairwise (fun a b =>
      ¬(a.Subject_ID = b.Subject_ID ∧ a.VISCODE = b.VISCODE)) :=
    List.Pairwise.sublist (List.filter_sublist arows) hpw
  rw [hrows, List.pairwise_map]
  exact hfil.imp (fun hab hand =>
    hab (by rwa [locate_row_row, locate_row_row] at hand))

/-- Witness for C8: the demo run yields one row per visit of one subject,
pairwise distinct in (Subject_ID, VISCODE). -/
theorem claim_C8_witness :
    List.Pairwise (fun a b =>
      ¬(a.row.Subject_ID = b.row.Subject_ID ∧ a.row.VISCODE = b.row.VISCODE))
      [demoLR1, demoLR2] :=
  claim_C8 demoFs "" [demoQC1, demoQC2] [demoM1, demoM2] ["941_S_1203"]
    [demoLR1, demoLR2] (by decide) rfl

/-- C10: a manifest row with an empty path is always classified as
multi-file (`Is_Dicom = true`): the flag only turns false when a `.nii`
file is found under a located image directory. -/
theorem claim_C10 (fs : FileTree) (src : String) (petqc : List QCRow)
    (metaList : List MetaRow) (subjs : List String) (rows : List LocatedRow)
    (h : compute_av45_pet_paths fs src petqc metaList subjs = .ok rows) :
    ∀ lr ∈ rows, lr.Path = "" → lr.Is_Dicom = true := by
  intro lr hlr hpath
  rcases compute_ok_elim h with ⟨arows, hp, hrows⟩
  rw [hrows] at hlr
  rcases List.mem_map.mp hlr with ⟨r, _, hlocate⟩
  rw [← hlocate] at hpath ⊢
  exact locate_row_path_empty hpath

/-- Witness for C10: the demo row's path is empty and its `Is_Dicom` flag
is true. -/
theorem claim_C10_witness : demoLR1.Is_Dicom = true :=
  claim_C10 demoFs "" [demoQC1, demoQC2] [demoM1, demoM2] ["941_S_1203"]
    [demoLR1, demoLR2] rfl demoLR1 (List.mem_cons_self demoLR1 [demoLR2]) rfl

end AV45
